import Mathlib

/-!
Verification of the slicing-floorplan program `src/A6.c`.

The C program rebuilds a binary slicing tree from a post-order token
sequence (`buildTree`), annotates it with enclosing-rectangle dimensions
(`computeDimensions`, bottom-up) and absolute coordinates
(`computeCoordinates`, top-down), and emits three reports
(`preorderTraversal`, `writeDimensions`, `writeCoordinates`).

The embedding below translates each C function into a pure Lean function.
The C `Node` struct (label, width, height, x, y, type, left, right) becomes
the inductive `Node`: the sentinel `type == '\0'` discriminates leaves from
cut nodes, so the embedding uses a two-constructor inductive; a cut node's
`label`, `x`, `y` fields are written only by `createNode` (to 0) and never
read afterwards in the C code, so they are dropped.  C `int` fields become
`Int`.  In-place mutation becomes tree-returning functions.  Places where
the C code has undefined behavior (out-of-bounds stack accesses, reads of
variables `sscanf` failed to fill) are modelled by distinguished error
values of `BuildErr`, so that theorems can observe exactly where the C
code leaves defined behavior.
-/

/-- Cut orientation: the C code stores `'H'` or `'V'` in `Node.type`. -/
inductive Orient where
  | H : Orient
  | V : Orient
deriving DecidableEq, Repr

/-- The C `Node` struct.  `leaf label width height x y` is a node with
`type == '\0'`; `cut o width height left right` is a node with
`type == 'H'` or `'V'`. -/
inductive Node where
  | leaf (label width height x y : Int) : Node
  | cut (o : Orient) (width height : Int) (left right : Node) : Node
deriving DecidableEq, Repr

/-- The `width` field of a node. -/
def Node.width : Node → Int
  | .leaf _ w _ _ _ => w
  | .cut _ w _ _ _ => w

/-- The `height` field of a node. -/
def Node.height : Node → Int
  | .leaf _ _ h _ _ => h
  | .cut _ _ h _ _ => h

/-- One input token: a leaf descriptor `label(width,height)` or an
operator line starting with `H` or `V`. -/
inductive Token where
  | leafTok (label width height : Int) : Token
  | op (o : Orient) : Token
deriving DecidableEq, Repr

/-- Outcomes of `buildTree` that the C code does not handle.
`underflow` marks the out-of-bounds reads `stack[stackTop--]` performed
when an operator arrives with fewer than two stacked subtrees;
`overflow` marks the out-of-bounds write `stack[++stackTop]` performed
when a 1001st subtree is pushed onto the fixed `Node *stack[1000]`;
`emptyStack` marks the out-of-bounds read `stack[-1]` in the final
`return stack[stackTop]` on empty input; `parseGarbage` marks the use of
the uninitialized `label`, `width`, `height` after `sscanf` fails to
match a line.  All four are undefined behavior in the C program. -/
inductive BuildErr where
  | underflow : BuildErr
  | overflow : BuildErr
  | emptyStack : BuildErr
  | parseGarbage : BuildErr
deriving DecidableEq, Repr

/-- One loop iteration of `buildTree` (src/A6.c lines 86-97) applied to
the stack.  The state is `(stackTop + 1, stack contents, top first)`.
An operator pops the right child first, then the left (lines 89-90);
a leaf descriptor is pushed via `createNode(label, width, height)`,
which zero-initializes `x`, `y` (line 73).  The capacity check mirrors
the fixed array `Node *stack[1000]` (line 81): pushing with 1000 entries
already present would write `stack[1000]`. -/
def applyToken : Nat × List Node → Token → Except BuildErr (Nat × List Node)
  | (n, st), .op o =>
      match st with
      | r :: l :: rest => .ok (n - 1, Node.cut o 0 0 l r :: rest)
      | _ => .error .underflow
  | (n, st), .leafTok lab w h =>
      if 1000 ≤ n then .error .overflow
      else .ok (n + 1, Node.leaf lab w h 0 0 :: st)

/-- The `while (fgets(...))` loop of `buildTree`, over an already
tokenized input. -/
def runBuild : Nat × List Node → List Token → Except BuildErr (Nat × List Node)
  | st, [] => .ok st
  | st, tk :: rest =>
      match applyToken st tk with
      | .ok st2 => runBuild st2 rest
      | .error e => .error e

/-- The final `return stack[stackTop]` of `buildTree` (line 100): the C
code returns the top of the stack even when more than one subtree
remains, and reads `stack[-1]` when the stack is empty. -/
def finishBuild : Except BuildErr (Nat × List Node) → Except BuildErr Node
  | .error e => .error e
  | .ok (_, []) => .error .emptyStack
  | .ok (_, t :: _) => .ok t

/-- `buildTree` (src/A6.c lines 80-101) over a token sequence. -/
def buildTree (toks : List Token) : Except BuildErr Node :=
  finishBuild (runBuild (0, []) toks)

/-- Characters skipped by `sscanf`'s `%d` conversion (C `isspace`). -/
def isWs (c : Char) : Bool :=
  c = ' ' || c = '\t' || c = '\n' || c = '\r' || c = '\x0b' || c = '\x0c'

/-- Drop leading whitespace, as `%d` does before reading digits. -/
def skipWs : List Char → List Char
  | [] => []
  | c :: cs => if isWs c then skipWs cs else c :: cs

/-- Numeric value of a digit string. -/
def digitsVal (ds : List Char) : Nat :=
  ds.foldl (fun a c => a * 10 + (c.toNat - '0'.toNat)) 0

/-- Read a maximal run of decimal digits. -/
def takeDigits (cs : List Char) : List Char × List Char :=
  cs.span Char.isDigit

/-- `sscanf`'s `%d`: skip whitespace, optional sign, at least one digit. -/
def scanInt (cs : List Char) : Option (Int × List Char) :=
  match skipWs cs with
  | '-' :: rest =>
      match takeDigits rest with
      | ([], _) => none
      | (ds, rem) => some (-(digitsVal ds : Int), rem)
  | '+' :: rest =>
      match takeDigits rest with
      | ([], _) => none
      | (ds, rem) => some ((digitsVal ds : Int), rem)
  | other =>
      match takeDigits other with
      | ([], _) => none
      | (ds, rem) => some ((digitsVal ds : Int), rem)

/-- Match one literal character of the `sscanf` format (no whitespace
skipping for ordinary characters). -/
def expectChar (c : Char) (cs : List Char) : Option (List Char) :=
  match cs with
  | d :: rest => if d = c then some rest else none
  | [] => none

/-- `sscanf(line, "%d(%d,%d)", &label, &width, &height)` succeeding with
all three conversions (src/A6.c line 94).  Trailing input (such as the
newline kept by `fgets`) is ignored, as `sscanf` ignores it. -/
def scanLeaf (cs : List Char) : Option (Int × Int × Int) := do
  let (lab, cs) ← scanInt cs
  let cs ← expectChar '(' cs
  let (w, cs) ← scanInt cs
  let cs ← expectChar ',' cs
  let (h, cs) ← scanInt cs
  let _ ← expectChar ')' cs
  some (lab, w, h)

/-- Classification of one input line by `buildTree` (lines 86-97): a line
whose first character is `H` or `V` is an operator regardless of the rest
of the line; any other line goes through `sscanf`, and `none` records a
line on which `sscanf` fails to fill all three variables, after which the
C code reads them uninitialized. -/
def parseLine (s : String) : Option Token :=
  match s.data with
  | [] => none
  | c :: _ =>
      if c = 'H' then some (.op .H)
      else if c = 'V' then some (.op .V)
      else
        match scanLeaf s.data with
        | some (lab, w, h) => some (.leafTok lab w h)
        | none => none

/-- The `buildTree` loop over raw input lines, interleaving parsing and
stack operations in input order as the C loop does. -/
def runLines : Nat × List Node → List String → Except BuildErr (Nat × List Node)
  | st, [] => .ok st
  | st, s :: rest =>
      match parseLine s with
      | none => .error .parseGarbage
      | some tk =>
          match applyToken st tk with
          | .ok st2 => runLines st2 rest
          | .error e => .error e

/-- `buildTree` from the input file's lines. -/
def buildFromLines (ls : List String) : Except BuildErr Node :=
  finishBuild (runLines (0, []) ls)

/-- `computeDimensions` (src/A6.c lines 116-128): bottom-up, leaves
untouched; an `H` cut gets `width = max`, `height = sum`; a `V` cut gets
`width = sum`, `height = max` of its (already processed) children. -/
def computeDimensions : Node → Node
  | .leaf lab w h x y => .leaf lab w h x y
  | .cut o _ _ l r =>
      let l2 := computeDimensions l
      let r2 := computeDimensions r
      match o with
      | .H => .cut .H (max l2.width r2.width) (l2.height + r2.height) l2 r2
      | .V => .cut .V (l2.width + r2.width) (max l2.height r2.height) l2 r2

/-- `computeCoordinates` (src/A6.c lines 144-156): a leaf stores the
origin it receives; an `H` cut sends its left child to
`(x, y + right.height)` and its right child to `(x, y)`; a `V` cut sends
its left child to `(x, y)` and its right child to `(x + left.width, y)`.
Dimensions are read from the children as they stand (the pass never
changes them). -/
def computeCoordinates : Node → Int → Int → Node
  | .leaf lab w h _ _, x, y => .leaf lab w h x y
  | .cut .H w h l r, x, y =>
      .cut .H w h (computeCoordinates l x (y + r.height)) (computeCoordinates r x y)
  | .cut .V w h l r, x, y =>
      .cut .V w h (computeCoordinates l x y) (computeCoordinates r (x + l.width) y)

/-- Output line `label(width,height)` (format strings at src/A6.c
lines 107 and 137). -/
def fmtLeaf (lab w h : Int) : String :=
  toString lab ++ "(" ++ toString w ++ "," ++ toString h ++ ")"

/-- The operator character of a cut, as printed. -/
def orientStr : Orient → String
  | .H => "H"
  | .V => "V"

/-- `preorderTraversal` (src/A6.c lines 104-113).  The C function takes
the node and a `FILE *`; the embedding returns the node as left in memory
after the call, paired with the lines written. -/
def preorderTraversal : Node → Node × List String
  | .leaf lab w h x y => (.leaf lab w h x y, [fmtLeaf lab w h])
  | .cut o w h l r =>
      let (l2, s1) := preorderTraversal l
      let (r2, s2) := preorderTraversal r
      (.cut o w h l2 r2, orientStr o :: (s1 ++ s2))

/-- `writeDimensions` (src/A6.c lines 131-141): post-order; leaves print
`label(width,height)`, cuts print `operator(width,height)`. -/
def writeDimensions : Node → Node × List String
  | .leaf lab w h x y => (.leaf lab w h x y, [fmtLeaf lab w h])
  | .cut o w h l r =>
      let (l2, s1) := writeDimensions l
      let (r2, s2) := writeDimensions r
      (.cut o w h l2 r2,
        s1 ++ s2 ++ [orientStr o ++ "(" ++ toString w ++ "," ++ toString h ++ ")"])

/-- `writeCoordinates` (src/A6.c lines 159-166): pre-order; only leaves
print, as `label((width,height)(x,y))`. -/
def writeCoordinates : Node → Node × List String
  | .leaf lab w h x y =>
      (.leaf lab w h x y,
        [toString lab ++ "((" ++ toString w ++ "," ++ toString h ++ ")(" ++
          toString x ++ "," ++ toString y ++ "))"])
  | .cut o w h l r =>
      let (l2, s1) := writeCoordinates l
      let (r2, s2) := writeCoordinates r
      (.cut o w h l2 r2, s1 ++ s2)

/-!
Spec-side definitions.  The checkers below transcribe the rules stated in
the specification (sections 4.1-4.3 and 8), to be compared with the
functions above, which transcribe the source.
-/

/-- Post-order serialization of a tree: leaves at leaf positions,
operators at internal-node positions (spec section 4.1's encoding). -/
def postorderTokens : Node → List Token
  | .leaf lab w h _ _ => [.leafTok lab w h]
  | .cut o _ _ l r => postorderTokens l ++ postorderTokens r ++ [.op o]

/-- A tree exactly as `buildTree` constructs it, before the geometry
passes: every leaf has the default coordinates `(0, 0)` and every cut
node the default dimensions `(0, 0)` set by `createNode`. -/
def isRaw : Node → Bool
  | .leaf _ _ _ x y => x == 0 && y == 0
  | .cut _ w h l r => w == 0 && h == 0 && isRaw l && isRaw r

/-- Largest number of simultaneously stacked subtrees while `buildTree`
processes this tree's post-order encoding, starting from an empty stack:
a leaf needs one slot; for a cut, the left subtree is built first, then
the right subtree is built on top of the finished left one. -/
def stackNeed : Node → Nat
  | .leaf _ _ _ _ _ => 1
  | .cut _ _ _ l r => max (stackNeed l) (1 + stackNeed r)

/-- Spec rule for the dimension pass (section 4.2), as a checker on an
annotated tree: every `H` cut has `width = max(left.width, right.width)`
and `height = left.height + right.height`; every `V` cut has
`width = left.width + right.width` and
`height = max(left.height, right.height)`; leaves are the base case. -/
def dimsCorrect : Node → Bool
  | .leaf _ _ _ _ _ => true
  | .cut .H w h l r =>
      w == max l.width r.width && h == l.height + r.height &&
        dimsCorrect l && dimsCorrect r
  | .cut .V w h l r =>
      w == l.width + r.width && h == max l.height r.height &&
        dimsCorrect l && dimsCorrect r

/-- Spec rule for the coordinate pass (section 4.3), as a checker: a node
rooted at origin `(x, y)` has, for an `H` cut, its right subtree placed
at `(x, y)` and its left subtree at `(x, y + right.height)`; for a `V`
cut, its left subtree at `(x, y)` and its right subtree at
`(x + left.width, y)`; a leaf stores exactly `(x, y)`. -/
def coordsCorrect : Node → Int → Int → Bool
  | .leaf _ _ _ px py, x, y => px == x && py == y
  | .cut .H _ _ l r, x, y =>
      coordsCorrect r x y && coordsCorrect l x (y + r.height)
  | .cut .V _ _ l r, x, y =>
      coordsCorrect l x y && coordsCorrect r (x + l.width) y

/-- All leaves carry positive intrinsic dimensions, as the input contract
requires (spec section 4.1: label, width, height are positive). -/
def leavesPos : Node → Bool
  | .leaf _ w h _ _ => decide (0 < w) && decide (0 < h)
  | .cut _ _ _ l r => leavesPos l && leavesPos r

/-- The `(label, width, height)` triples of the leaves, in traversal
order: the leaves' intrinsic data. -/
def leafDims : Node → List (Int × Int × Int)
  | .leaf lab w h _ _ => [(lab, w, h)]
  | .cut _ _ _ l r => leafDims l ++ leafDims r

/-- An axis-aligned rectangle `(x, y, width, height)` with bottom-left
corner `(x, y)`. -/
structure Box where
  x : Int
  y : Int
  w : Int
  h : Int
deriving DecidableEq, Repr

/-- The bounding boxes of all leaves of an annotated tree. -/
def leafBoxes : Node → List Box
  | .leaf _ w h x y => [⟨x, y, w, h⟩]
  | .cut _ _ _ l r => leafBoxes l ++ leafBoxes r

/-- Two boxes do not overlap in area: their interiors are disjoint. -/
def noOverlap (a b : Box) : Bool :=
  !(decide (a.x < b.x + b.w) && decide (b.x < a.x + a.w) &&
    decide (a.y < b.y + b.h) && decide (b.y < a.y + a.h))

/-- A raw left-leaning chain of `n + 1` identical leaves under `n` cuts
of orientation `o`: its post-order encoding pushes all `n + 1` leaves
before the first operator arrives. -/
def chainO (o : Orient) (lab w h : Int) : Nat → Node
  | 0 => .leaf lab w h 0 0
  | n + 1 => .cut o 0 0 (.leaf lab w h 0 0) (chainO o lab w h n)

/-- Proof device: the stack discipline of `buildTree` with no capacity
bound, used to show that a post-order encoding determines the tree. -/
def runFree : List Node → List Token → Option (List Node)
  | st, [] => some st
  | st, .op o :: rest =>
      match st with
      | r :: l :: s => runFree (Node.cut o 0 0 l r :: s) rest
      | _ => none
  | st, .leafTok lab w h :: rest => runFree (Node.leaf lab w h 0 0 :: st) rest

/-!
Helper lemmas.
-/

/-- The coordinate pass never changes a node's `width` field. -/
lemma computeCoordinates_width (t : Node) (x y : Int) :
    (computeCoordinates t x y).width = t.width := by
  cases t with
  | leaf lab w h px py => rfl
  | cut o w h l r => cases o <;> rfl

/-- The coordinate pass never changes a node's `height` field. -/
lemma computeCoordinates_height (t : Node) (x y : Int) :
    (computeCoordinates t x y).height = t.height := by
  cases t with
  | leaf lab w h px py => rfl
  | cut o w h l r => cases o <;> rfl

/-- The dimension pass establishes the spec's dimension rules on every
node of its result. -/
lemma dimsCorrect_computeDimensions (t : Node) :
    dimsCorrect (computeDimensions t) = true := by
  induction t with
  | leaf lab w h px py => rfl
  | cut o w h l r ihl ihr =>
      cases o <;> simp [computeDimensions, dimsCorrect, ihl, ihr]

/-- The dimension pass leaves every leaf's label and intrinsic
dimensions unchanged. -/
lemma leafDims_computeDimensions (t : Node) :
    leafDims (computeDimensions t) = leafDims t := by
  induction t with
  | leaf lab w h px py => rfl
  | cut o w h l r ihl ihr =>
      cases o <;> simp [computeDimensions, leafDims, ihl, ihr]

/-- The dimension pass preserves leaf positivity. -/
lemma leavesPos_computeDimensions (t : Node) :
    leavesPos (computeDimensions t) = leavesPos t := by
  induction t with
  | leaf lab w h px py => rfl
  | cut o w h l r ihl ihr =>
      cases o <;> simp [computeDimensions, leavesPos, ihl, ihr]

/-- On a tree satisfying the dimension rules with positive leaves, every
node's width and height are positive. -/
lemma dims_pos (t : Node) (hd : dimsCorrect t = true) (hp : leavesPos t = true) :
    0 < t.width ∧ 0 < t.height := by
  induction t with
  | leaf lab w h px py =>
      simp [leavesPos] at hp
      exact ⟨hp.1, hp.2⟩
  | cut o w h l r ihl ihr =>
      simp [leavesPos] at hp
      obtain ⟨hpl, hpr⟩ := hp
      cases o with
      | H =>
          simp [dimsCorrect] at hd
          obtain ⟨⟨⟨hw, hh⟩, hdl⟩, hdr⟩ := hd
          have hl := ihl hdl hpl
          have hr := ihr hdr hpr
          subst hw hh
          refine ⟨?_, ?_⟩
          · show 0 < max l.width r.width
            exact lt_max_of_lt_left hl.1
          · show 0 < l.height + r.height
            have := hl.2
            have := hr.2
            omega
      | V =>
          simp [dimsCorrect] at hd
          obtain ⟨⟨⟨hw, hh⟩, hdl⟩, hdr⟩ := hd
          have hl := ihl hdl hpl
          have hr := ihr hdr hpr
          subst hw hh
          refine ⟨?_, ?_⟩
          · show 0 < l.width + r.width
            have := hl.1
            have := hr.1
            omega
          · show 0 < max l.height r.height
            exact lt_max_of_lt_left hl.2

@[simp] lemma Node.width_leaf (lab w h x y : Int) :
    (Node.leaf lab w h x y).width = w := rfl

@[simp] lemma Node.width_cut (o : Orient) (w h : Int) (l r : Node) :
    (Node.cut o w h l r).width = w := rfl

@[simp] lemma Node.height_leaf (lab w h x y : Int) :
    (Node.leaf lab w h x y).height = h := rfl

@[simp] lemma Node.height_cut (o : Orient) (w h : Int) (l r : Node) :
    (Node.cut o w h l r).height = h := rfl

/-- The coordinate pass realizes the spec's placement rules at every
node, for any root origin. -/
lemma coordsCorrect_computeCoordinates (t : Node) (x y : Int) :
    coordsCorrect (computeCoordinates t x y) x y = true := by
  induction t generalizing x y with
  | leaf lab w h px py => simp [computeCoordinates, coordsCorrect]
  | cut o w h l r ihl ihr =>
      cases o with
      | H =>
          simp [computeCoordinates, coordsCorrect, computeCoordinates_height,
            ihl, ihr]
      | V =>
          simp [computeCoordinates, coordsCorrect, computeCoordinates_width,
            ihl, ihr]

/-- Every leaf box of the coordinate-annotated tree lies inside the
rectangle spanned by the root's origin and its computed dimensions. -/
lemma leafBoxes_bound (t : Node) (x y : Int) (hd : dimsCorrect t = true)
    (hp : leavesPos t = true) :
    ∀ b ∈ leafBoxes (computeCoordinates t x y),
      x ≤ b.x ∧ b.x + b.w ≤ x + t.width ∧ y ≤ b.y ∧ b.y + b.h ≤ y + t.height := by
  induction t generalizing x y with
  | leaf lab w h px py =>
      intro b hb
      simp [computeCoordinates, leafBoxes] at hb
      subst hb
      simp
  | cut o w h l r ihl ihr =>
      simp [leavesPos] at hp
      obtain ⟨hpl, hpr⟩ := hp
      cases o with
      | H =>
          simp [dimsCorrect] at hd
          obtain ⟨⟨⟨hw, hh⟩, hdl⟩, hdr⟩ := hd
          subst hw hh
          have hlpos := dims_pos l hdl hpl
          have hrpos := dims_pos r hdr hpr
          have hwl : l.width ≤ max l.width r.width := le_max_left _ _
          have hwr : r.width ≤ max l.width r.width := le_max_right _ _
          intro b hb
          simp only [computeCoordinates, leafBoxes, List.mem_append] at hb
          simp only [Node.width_cut, Node.height_cut]
          rcases hb with hb | hb
          · obtain ⟨a1, a2, a3, a4⟩ := ihl x (y + r.height) hdl hpl b hb
            have h5 : 0 < r.height := hrpos.2
            refine ⟨by omega, by omega, by omega, by omega⟩
          · obtain ⟨a1, a2, a3, a4⟩ := ihr x y hdr hpr b hb
            have h5 : 0 < l.height := hlpos.2
            refine ⟨by omega, by omega, by omega, by omega⟩
      | V =>
          simp [dimsCorrect] at hd
          obtain ⟨⟨⟨hw, hh⟩, hdl⟩, hdr⟩ := hd
          subst hw hh
          have hlpos := dims_pos l hdl hpl
          have hrpos := dims_pos r hdr hpr
          have hhl : l.height ≤ max l.height r.height := le_max_left _ _
          have hhr : r.height ≤ max l.height r.height := le_max_right _ _
          intro b hb
          simp only [computeCoordinates, leafBoxes, List.mem_append] at hb
          simp only [Node.width_cut, Node.height_cut]
          rcases hb with hb | hb
          · obtain ⟨a1, a2, a3, a4⟩ := ihl x y hdl hpl b hb
            have h5 : 0 < r.width := hrpos.1
            refine ⟨by omega, by omega, by omega, by omega⟩
          · obtain ⟨a1, a2, a3, a4⟩ := ihr (x + l.width) y hdr hpr b hb
            have h5 : 0 < l.width := hlpos.1
            refine ⟨by omega, by omega, by omega, by omega⟩

/-- The leaf boxes of the coordinate-annotated tree are pairwise
non-overlapping. -/
lemma leafBoxes_pairwise (t : Node) (x y : Int) (hd : dimsCorrect t = true)
    (hp : leavesPos t = true) :
    List.Pairwise (fun a b => noOverlap a b = true)
      (leafBoxes (computeCoordinates t x y)) := by
  induction t generalizing x y with
  | leaf lab w h px py => simp [computeCoordinates, leafBoxes]
  | cut o w h l r ihl ihr =>
      simp [leavesPos] at hp
      obtain ⟨hpl, hpr⟩ := hp
      cases o with
      | H =>
          simp [dimsCorrect] at hd
          obtain ⟨⟨⟨hw, hh⟩, hdl⟩, hdr⟩ := hd
          simp only [computeCoordinates, leafBoxes]
          rw [List.pairwise_append]
          refine ⟨ihl _ _ hdl hpl, ihr _ _ hdr hpr, ?_⟩
          intro a ha b hb
          obtain ⟨_, _, a3, _⟩ := leafBoxes_bound l x (y + r.height) hdl hpl a ha
          obtain ⟨_, _, _, b4⟩ := leafBoxes_bound r x y hdr hpr b hb
          simp [noOverlap]
          omega
      | V =>
          simp [dimsCorrect] at hd
          obtain ⟨⟨⟨hw, hh⟩, hdl⟩, hdr⟩ := hd
          simp only [computeCoordinates, leafBoxes]
          rw [List.pairwise_append]
          refine ⟨ihl _ _ hdl hpl, ihr _ _ hdr hpr, ?_⟩
          intro a ha b hb
          obtain ⟨_, a2, _, _⟩ := leafBoxes_bound l x y hdl hpl a ha
          obtain ⟨b1, _, _, _⟩ := leafBoxes_bound r (x + l.width) y hdr hpr b hb
          simp [noOverlap]
          omega

/-- Running the builder loop over the post-order encoding of a raw tree
pushes exactly that tree, provided the stack never outgrows the fixed
1000-slot array. -/
lemma runBuild_postorder (t : Node) :
    ∀ (n : Nat) (st : List Node) (rest : List Token), isRaw t = true →
      n = st.length → n + stackNeed t ≤ 1000 →
      runBuild (n, st) (postorderTokens t ++ rest) = runBuild (n + 1, t :: st) rest := by
  induction t with
  | leaf lab w h px py =>
      intro n st rest hr hn hb
      simp [isRaw] at hr
      obtain ⟨hx, hy⟩ := hr
      subst hx hy
      have hc : ¬ (1000 ≤ n) := by simp [stackNeed] at hb; omega
      simp [postorderTokens, runBuild, applyToken, hc]
  | cut o w h l r ihl ihr =>
      intro n st rest hr hn hb
      simp [isRaw] at hr
      obtain ⟨⟨⟨hw, hh⟩, hrl⟩, hrr⟩ := hr
      subst hw hh
      have h1 := le_max_left (stackNeed l) (1 + stackNeed r)
      have h2 := le_max_right (stackNeed l) (1 + stackNeed r)
      simp only [stackNeed] at hb
      rw [postorderTokens, List.append_assoc, List.append_assoc]
      rw [ihl n st _ hrl hn (by omega)]
      rw [ihr (n + 1) (l :: st) _ hrr (by simp [hn]) (by omega)]
      simp [runBuild, applyToken]

/-- `buildTree` is a left inverse of post-order serialization on raw
trees that fit in the fixed stack. -/
lemma buildTree_postorder (t : Node) (hr : isRaw t = true)
    (hb : stackNeed t ≤ 1000) :
    buildTree (postorderTokens t) = .ok t := by
  have h := runBuild_postorder t 0 [] [] hr rfl (by omega)
  rw [List.append_nil] at h
  rw [buildTree, h]
  rfl

/-- The unbounded stack discipline also replays a post-order encoding
into the tree it came from. -/
lemma runFree_postorder (t : Node) :
    ∀ (st : List Node) (rest : List Token), isRaw t = true →
      runFree st (postorderTokens t ++ rest) = runFree (t :: st) rest := by
  induction t with
  | leaf lab w h px py =>
      intro st rest hr
      simp [isRaw] at hr
      obtain ⟨hx, hy⟩ := hr
      subst hx hy
      simp [postorderTokens, runFree]
  | cut o w h l r ihl ihr =>
      intro st rest hr
      simp [isRaw] at hr
      obtain ⟨⟨⟨hw, hh⟩, hrl⟩, hrr⟩ := hr
      subst hw hh
      rw [postorderTokens, List.append_assoc, List.append_assoc,
        ihl _ _ hrl, ihr _ _ hrr]
      simp [runFree]

/-- A post-order encoding determines the raw tree: the tree the builder
returns is the unique one reproducing the input sequence. -/
lemma postorder_inj (t u : Node) (ht : isRaw t = true) (hu : isRaw u = true)
    (h : postorderTokens t = postorderTokens u) : t = u := by
  have h1 := runFree_postorder t [] [] ht
  have h2 := runFree_postorder u [] [] hu
  rw [List.append_nil] at h1 h2
  rw [h, h2] at h1
  simp [runFree] at h1
  exact h1.symm

/-- Pushing more leaves than the fixed stack can hold reaches the
out-of-bounds write, whatever follows in the input. -/
lemma runBuild_overflow (lab w h : Int) :
    ∀ (k n : Nat) (st : List Node) (rest : List Token), n ≤ 1000 → 1000 < n + k →
      runBuild (n, st) (List.replicate k (Token.leafTok lab w h) ++ rest) =
        .error .overflow := by
  intro k
  induction k with
  | zero =>
      intro n st rest hc1 hc2
      omega
  | succ k ih =>
      intro n st rest hc1 hc2
      rw [List.replicate_succ, List.cons_append]
      by_cases hc : 1000 ≤ n
      · simp [runBuild, applyToken, hc]
      · simp only [runBuild, applyToken, if_neg hc]
        exact ih (n + 1) _ rest (by omega) (by omega)

/-- The post-order encoding of `chainO o lab w h n` pushes its `n + 1`
leaves before the first operator arrives. -/
lemma postorderTokens_chainO (o : Orient) (lab w h : Int) (n : Nat) :
    postorderTokens (chainO o lab w h n) =
      List.replicate (n + 1) (Token.leafTok lab w h) ++
        List.replicate n (Token.op o) := by
  induction n with
  | zero => rfl
  | succ n ih =>
      rw [chainO, postorderTokens, postorderTokens, ih]
      simp [List.replicate_succ, List.append_assoc]
      rw [← List.replicate_succ', List.replicate_succ]

/-- The chain trees are raw. -/
lemma isRaw_chainO (o : Orient) (lab w h : Int) (n : Nat) :
    isRaw (chainO o lab w h n) = true := by
  induction n with
  | zero => rfl
  | succ n ih => simp [chainO, isRaw, ih]

/-!
Claim theorems.
-/

/-- Claim C1: after the dimension pass, every Horizontal cut node has
`width = max(left.width, right.width)` and
`height = left.height + right.height`, and every Vertical cut node has
`width = left.width + right.width` and
`height = max(left.height, right.height)`, recursively bottoming out at
the leaves' intrinsic width and height (which the pass leaves unchanged).
Stated for every tree, hence in particular for every tree produced by the
builder. -/
theorem C1_dimension_rules (t : Node) :
    dimsCorrect (computeDimensions t) = true ∧
      leafDims (computeDimensions t) = leafDims t :=
  ⟨dimsCorrect_computeDimensions t, leafDims_computeDimensions t⟩

/-- Claim C2: the coordinate pass invoked at origin `(x, y)` places, at a
Horizontal cut, the right subtree at `(x, y)` and the left subtree at
`(x, y + right.height)`; at a Vertical cut, the left subtree at `(x, y)`
and the right subtree at `(x + left.width, y)`; and a leaf stores
`(x, y)` directly.  `coordsCorrect` transcribes exactly these placement
rules from the spec. -/
theorem C2_coordinate_rules (t : Node) (x y : Int) :
    coordsCorrect (computeCoordinates t x y) x y = true :=
  coordsCorrect_computeCoordinates t x y

/-- Claim C3, counterexample: the chain tree over 1001 leaves has a
perfectly valid post-order token sequence, but its 1001st leaf does not
fit in the fixed 1000-slot stack of `buildTree`, so the builder reaches
an out-of-bounds write instead of returning the tree the sequence
encodes. -/
theorem C3_counterexample :
    buildTree (postorderTokens (chainO .H 1 1 1 1000)) = .error .overflow := by
  rw [buildTree, postorderTokens_chainO]
  rw [runBuild_overflow 1 1 1 (1000 + 1) 0 []
    (List.replicate 1000 (Token.op .H)) (by omega) (by omega)]
  rfl

/-- Claim C3, amended: for every valid token sequence during whose
processing at most 1000 subtrees are ever pending (the fixed capacity of
the stack in src/A6.c line 81), the builder returns the unique binary
tree whose post-order traversal reproduces the sequence.  Valid
sequences are exactly the post-order encodings of raw trees, and
`stackNeed` counts the pending subtrees. -/
theorem C3_postorder_roundtrip (t : Node) (hr : isRaw t = true)
    (hb : stackNeed t ≤ 1000) :
    buildTree (postorderTokens t) = .ok t ∧
      ∀ u : Node, isRaw u = true → postorderTokens u = postorderTokens t →
        u = t :=
  ⟨buildTree_postorder t hr hb, fun u hu he => postorder_inj u t hu hr he⟩

/-- Witness for C3: the round-trip theorem applied to the two-leaf tree
of the spec's worked example. -/
theorem C3_postorder_roundtrip_witness :
    isRaw (Node.cut .H 0 0 (.leaf 1 2 3 0 0) (.leaf 2 4 5 0 0)) = true ∧
      stackNeed (Node.cut .H 0 0 (.leaf 1 2 3 0 0) (.leaf 2 4 5 0 0)) ≤ 1000 ∧
      buildTree (postorderTokens
          (Node.cut .H 0 0 (.leaf 1 2 3 0 0) (.leaf 2 4 5 0 0))) =
        .ok (Node.cut .H 0 0 (.leaf 1 2 3 0 0) (.leaf 2 4 5 0 0)) :=
  ⟨by decide, by decide,
    (C3_postorder_roundtrip _ (by decide) (by decide)).1⟩

/-- Claim C4: for every tree whose leaves carry positive intrinsic
dimensions — as every tree built from a valid token sequence does —
after the dimension pass and the coordinate pass from origin `(0, 0)`,
the bounding boxes of any two distinct leaves do not overlap in area. -/
theorem C4_leaves_no_overlap (t : Node) (hp : leavesPos t = true) :
    List.Pairwise (fun a b => noOverlap a b = true)
      (leafBoxes (computeCoordinates (computeDimensions t) 0 0)) :=
  leafBoxes_pairwise (computeDimensions t) 0 0
    (dimsCorrect_computeDimensions t)
    (by rw [leavesPos_computeDimensions]; exact hp)

/-- Witness for C4: the no-overlap theorem applied to the spec's worked
example. -/
theorem C4_leaves_no_overlap_witness :
    leavesPos (Node.cut .H 0 0 (.leaf 1 2 3 0 0) (.leaf 2 4 5 0 0)) = true ∧
      List.Pairwise (fun a b => noOverlap a b = true)
        (leafBoxes (computeCoordinates (computeDimensions
          (Node.cut .H 0 0 (.leaf 1 2 3 0 0) (.leaf 2 4 5 0 0))) 0 0)) :=
  ⟨by decide, C4_leaves_no_overlap _ (by decide)⟩

/-- Claim C5 (code bug): `buildTree` performs no structural checks.  On
an operator with zero preceding subtrees it reaches the out-of-bounds
reads `stack[-1]`, `stack[-2]` (modelled by `.underflow`); when more
than one subtree remains after the input it silently returns the
most-recently pushed one instead of failing; and on empty input it
reaches the out-of-bounds read `stack[-1]` (modelled by
`.emptyStack`).  No `StructuralError` exists anywhere in the code. -/
theorem C5_no_structural_checks :
    buildTree [Token.op .H] = .error .underflow ∧
      buildTree [Token.leafTok 1 2 3, Token.leafTok 2 4 5] =
        .ok (.leaf 2 4 5 0 0) ∧
      buildTree ([] : List Token) = .error .emptyStack :=
  ⟨rfl, rfl, rfl⟩

/-- Claim C6 (code bug): on the line `X(1,2)`, which is neither an
operator nor a parsable leaf descriptor, `sscanf` fails and the code
pushes a node built from the uninitialized variables (modelled by
`.parseGarbage`) instead of failing with a ParseError; moreover any line
merely starting with `H` — such as `Hello` — is accepted as a Horizontal
cut operator. -/
theorem C6_no_parse_error :
    parseLine "X(1,2)" = none ∧
      buildFromLines ["X(1,2)"] = .error .parseGarbage ∧
      parseLine "Hello" = some (.op .H) :=
  ⟨rfl, rfl, rfl⟩

/-- Claim C7 (code bug): the auxiliary stack is the fixed array
`Node *stack[1000]`; on the valid post-order input consisting of 1001
leaves followed by 1000 `V` operators, the builder reaches the
out-of-bounds write `stack[1000]` (modelled by `.overflow`) instead of
growing the stack. -/
theorem C7_stack_ceiling :
    buildTree (postorderTokens (chainO .V 2 3 4 1000)) = .error .overflow := by
  rw [buildTree, postorderTokens_chainO]
  rw [runBuild_overflow 2 3 4 (1000 + 1) 0 []
    (List.replicate 1000 (Token.op .V)) (by omega) (by omega)]
  rfl

/-- Claim C8: on the input lines `1(2,3)`, `2(4,5)`, `H` the pipeline
produces exactly the dimension report `1(2,3)`, `2(4,5)`, `H(4,8)` and
the coordinate report `1((2,3)(0,5))`, `2((4,5)(0,0))`, in those
orders. -/
theorem C8_worked_example :
    buildFromLines ["1(2,3)", "2(4,5)", "H"] =
      .ok (.cut .H 0 0 (.leaf 1 2 3 0 0) (.leaf 2 4 5 0 0)) ∧
      (writeDimensions (computeDimensions
          (Node.cut .H 0 0 (.leaf 1 2 3 0 0) (.leaf 2 4 5 0 0)))).2 =
        ["1(2,3)", "2(4,5)", "H(4,8)"] ∧
      (writeCoordinates (computeCoordinates (computeDimensions
          (Node.cut .H 0 0 (.leaf 1 2 3 0 0) (.leaf 2 4 5 0 0))) 0 0)).2 =
        ["1((2,3)(0,5))", "2((4,5)(0,0))"] :=
  ⟨rfl, rfl, rfl⟩

/-- Claim C9: each serializer traversal returns the tree exactly as it
received it — the first component of each embedded traversal, which
models the tree as left in memory after the call, equals the input
tree. -/
theorem C9_serializers_no_mutation (t : Node) :
    (preorderTraversal t).1 = t ∧ (writeDimensions t).1 = t ∧
      (writeCoordinates t).1 = t := by
  induction t with
  | leaf lab w h x y => exact ⟨rfl, rfl, rfl⟩
  | cut o w h l r ihl ihr =>
      obtain ⟨p1, p2, p3⟩ := ihl
      obtain ⟨q1, q2, q3⟩ := ihr
      refine ⟨?_, ?_, ?_⟩ <;>
        simp [preorderTraversal, writeDimensions, writeCoordinates,
          p1, p2, p3, q1, q2, q3]

/-- Claim C10: for every tree with positive leaf dimensions — in
particular every tree built from a valid token sequence — after both
passes from origin `(0, 0)`, every leaf rectangle lies inside the root's
enclosing rectangle. -/
theorem C10_leaves_inside_root (t : Node) (hp : leavesPos t = true) :
    ∀ b ∈ leafBoxes (computeCoordinates (computeDimensions t) 0 0),
      0 ≤ b.x ∧ 0 ≤ b.y ∧ b.x + b.w ≤ (computeDimensions t).width ∧
        b.y + b.h ≤ (computeDimensions t).height := by
  intro b hb
  obtain ⟨a1, a2, a3, a4⟩ := leafBoxes_bound (computeDimensions t) 0 0
    (dimsCorrect_computeDimensions t)
    (by rw [leavesPos_computeDimensions]; exact hp) b hb
  exact ⟨a1, a3, by omega, by omega⟩

/-- Witness for C10: the containment theorem applied to the worked
example and its first leaf box. -/
theorem C10_leaves_inside_root_witness :
    leavesPos (Node.cut .H 0 0 (.leaf 1 2 3 0 0) (.leaf 2 4 5 0 0)) = true ∧
      (Box.mk 0 5 2 3) ∈ leafBoxes (computeCoordinates (computeDimensions
        (Node.cut .H 0 0 (.leaf 1 2 3 0 0) (.leaf 2 4 5 0 0))) 0 0) ∧
      (0 ≤ (Box.mk 0 5 2 3).x ∧ 0 ≤ (Box.mk 0 5 2 3).y ∧
        (Box.mk 0 5 2 3).x + (Box.mk 0 5 2 3).w ≤
          (computeDimensions
            (Node.cut .H 0 0 (.leaf 1 2 3 0 0) (.leaf 2 4 5 0 0))).width ∧
        (Box.mk 0 5 2 3).y + (Box.mk 0 5 2 3).h ≤
          (computeDimensions
            (Node.cut .H 0 0 (.leaf 1 2 3 0 0) (.leaf 2 4 5 0 0))).height) :=
  ⟨by decide, by decide, C10_leaves_inside_root _ (by decide) _ (by decide)⟩
